import Mathlib

/-!
Verification of the recommendation/keyword microservice of the CPIAS expert
directory (`Backend/src/ai.py`, class `LLM`), against its natural-language
specification.  The Python code is shallowly embedded: external backends
(generative model, translator, sentence segmenter, embedding ranker, clock)
are abstracted as function parameters, exceptions become `Except`, and the
mutable Chroma collection becomes an explicit state value.  Every definition
follows the corresponding Python function line by line.
-/

namespace CPIAS

/-! ## Generative-model retry loop

Embeds `LLM.__try_get_llm_expert_recommendation` and `LLM.__try_get_llm_keywords`
(`ai.py` lines 744-771 and 816-843).  One call of the backend on attempt `n`
either returns a parsed value, raises the retried exception class
(`OutputParserException` resp. `AttributeError`, both of which the spec calls a
parse failure), or raises any other exception. -/

/-- Outcome of a single backend attempt: parsed value, a parse failure caught by
the `except` clause, or any other exception. -/
inductive AttemptResult (α : Type) where
  | ok (a : α)
  | parseFail (msg : String)
  | otherFail (msg : String)


/-- Result of the whole retry loop, together with how many times the backend was
invoked and how many seconds were spent in `time.sleep`. -/
structure TryOutcome (α : Type) where
  result : Except String α
  calls : Nat
  slept : Nat


/-- Body of `for attempt in range(1, max_attempts)` shared by both retry
wrappers: the list argument is the list of attempt numbers produced by
`range(1, max_attempts)`.  A parse failure sleeps `retry_delay` seconds and
continues; any other exception propagates immediately; an exhausted list raises
the terminal error `failMsg`. -/
def try_attempts {α : Type} (backend : Nat → AttemptResult α) (failMsg : String)
    (retry_delay : Nat) : List Nat → TryOutcome α
  | [] => ⟨.error failMsg, 0, 0⟩
  | n :: rest =>
    match backend n with
    | .ok a => ⟨.ok a, 1, 0⟩
    | .parseFail _ =>
      let o := try_attempts backend failMsg retry_delay rest
      ⟨o.result, o.calls + 1, o.slept + retry_delay⟩
    | .otherFail m => ⟨.error m, 1, 0⟩

/-- Embeds `LLM.__try_get_llm_expert_recommendation(llm_input, max_attempts=4,
retry_delay=1)`; the backend abstracts `self.expert_recommendation_llm` composed
with `self.expert_recommendation_parser.parse`. -/
def try_get_llm_expert_recommendation {α : Type} (backend : Nat → AttemptResult α)
    (max_attempts retry_delay : Nat) : TryOutcome α :=
  try_attempts backend "Error occurred when parsing LLM output for generic profiles."
    retry_delay (List.range' 1 (max_attempts - 1))

/-- Embeds `LLM.__try_get_llm_keywords(llm_input, max_attempts=4, retry_delay=1)`;
the backend abstracts `self.keywords_chain.predict` composed with
`self.keywords_parser.parse`. -/
def try_get_llm_keywords {α : Type} (backend : Nat → AttemptResult α)
    (max_attempts retry_delay : Nat) : TryOutcome α :=
  try_attempts backend "Error occurred when parsing LLM output for keywords."
    retry_delay (List.range' 1 (max_attempts - 1))

/-- A backend that fails parsing on attempts 1, 2 and 3 and parses successfully
from attempt 4 on: the input the retry-budget sentence of the spec promises a
successful result for. -/
def backend_three_parse_failures : Nat → AttemptResult Nat := fun n =>
  if n ≤ 3 then .parseFail "unparsable model output" else .ok 42

/-! ## RPC dispatch

Embeds `LLM.__call_method` (`ai.py` lines 895-920) and the worker loop
`LLM.start_llm_processing` (lines 946-982).  `__call_method` resolves the
requested name with `getattr(self, f'_LLM__{method_name}')`, so the names it
can invoke are exactly the name-mangled double-underscore methods of the class,
not only the five operations of the public RPC table. -/

/-- The five operations of the RPC method table that `query_llm` documents
(`ai.py` lines 1000-1009). -/
def rpc_table_methods : List String :=
  ["get_keywords", "get_experts_recommendation", "add_expert_to_vector_store",
   "update_expert_in_vector_store", "delete_expert_from_vector_store"]

/-- Every double-underscore method defined in class `LLM`: the exact set of
names `m` for which `getattr(self, '_LLM__' + m)` resolves to a callable. -/
def llm_private_methods : List String :=
  ["get_expert_recommendation_llm", "get_expert_skills_from_csv",
   "get_expert_skills_from_json", "get_expert_skills",
   "get_expert_recommendation_embeddings",
   "get_expert_recommendation_chroma_db_client",
   "get_expert_recommendation_vector_store",
   "populate_or_update_expert_recommendation_vector_store",
   "delete_expert_from_vector_store", "add_expert_to_vector_store",
   "update_expert_in_vector_store", "get_expert_recommendation_parser",
   "get_expert_recommendation_prompt", "get_keywords_embeddings",
   "get_keywords_model", "get_keywords_parser", "get_keywords_prompt",
   "get_keywords_chain", "get_nlp", "get_stop_words", "remove_stop_words",
   "get_user_emails_from_llm_response", "translate_text",
   "init_expert_recommendation_chain", "init_keywords_chain", "init_zmq",
   "try_get_llm_expert_recommendation", "get_experts_recommendation",
   "try_get_llm_keywords", "get_keywords", "call_method"]

/-- The structured response dictionary `__call_method` and the loop send back:
either `{'status': 'success', 'result': v}` or
`{'status': 'error', 'error_message': msg}`. -/
inductive RpcResponse (V : Type) where
  | success (v : V)
  | failure (msg : String)
deriving DecidableEq

/-- Embeds `LLM.__call_method(method_name, arguments)`.  The parameter `invoke`
abstracts running the resolved bound method on the given arguments, returning
its value or raising an exception (`Except.error`); such an exception escapes
`__call_method` itself, hence the outer `Except`. -/
def call_method {Arg V : Type} (invoke : String → List Arg → Except String V)
    (method_name : String) (arguments : List Arg) : Except String (RpcResponse V) :=
  if method_name ∈ llm_private_methods then
    match invoke method_name arguments with
    | .ok v => .ok (.success v)
    | .error e => .error e
  else
    .ok (.failure ("Method not found: " ++ method_name))

/-- One item received by the worker loop: either a decoded request (its method
name and argument list) or the `zmq.error.ContextTerminated` signal raised by
`recv_json` when the transport context is torn down. -/
inductive LoopEvent (Arg : Type) where
  | msg (method : String) (arguments : List Arg)
  | ctxTerminated
deriving DecidableEq

/-- Embeds the `while self.is_available` loop of `LLM.start_llm_processing`,
driven by the stream of receive results.  Returns the responses sent back, in
order, and the final value of `self.is_available` (`false` exactly when the
loop exited through the `ContextTerminated` handler).  An exception raised by
the invoked operation is caught by the outer `except Exception` clause,
serialized as an error response, and the loop continues. -/
def start_llm_processing {Arg V : Type} (invoke : String → List Arg → Except String V) :
    List (LoopEvent Arg) → List (RpcResponse V) × Bool
  | [] => ([], true)
  | .ctxTerminated :: _ => ([], false)
  | .msg method_name arguments :: rest =>
    let response : RpcResponse V :=
      if method_name = "" then .failure "No method specified"
      else
        match call_method invoke method_name arguments with
        | .ok r => r
        | .error e => .failure e
    let o := start_llm_processing invoke rest
    (response :: o.1, o.2)

/-! ## String helpers

Data-level embeddings of the Python `str` methods the service uses:
`str.lstrip()`, `str.lower()`, `str.upper()` (ASCII case mapping, which is all
the keyword pipeline relies on). -/

/-- Embeds `str.lstrip()` with no argument: drop leading whitespace. -/
def pyLstrip (s : String) : String := ⟨s.data.dropWhile Char.isWhitespace⟩

/-- Embeds `str.upper()` on one character (ASCII range). -/
def pyUpperChar (c : Char) : Char :=
  if c.toNat ≥ 97 ∧ c.toNat ≤ 122 then Char.ofNat (c.toNat - 32) else c

/-- Embeds `str.lower()` on one character (ASCII range). -/
def pyLowerChar (c : Char) : Char :=
  if c.toNat ≥ 65 ∧ c.toNat ≤ 90 then Char.ofNat (c.toNat + 32) else c

/-- Embeds `str.upper()`. -/
def pyUpper (s : String) : String := ⟨s.data.map pyUpperChar⟩

/-- Embeds `str.lower()`. -/
def pyLower (s : String) : String := ⟨s.data.map pyLowerChar⟩

/-! ## Stop-word removal

Embeds `LLM.__get_stop_words` (`ai.py` lines 586-598) and
`LLM.__remove_stop_words` (lines 600-617).  The spaCy tokenizer is abstracted
as `tok`, the language's stop-word set as `stop_words`. -/

/-- Embeds `[p for p in string.punctuation]`: the 32 ASCII punctuation
characters, each as a one-character string (`string.punctuation` is the ASCII
ranges 33-47, 58-64, 91-96 and 123-126). -/
def punctuation_strings : List String :=
  (((List.range 127).filter fun n =>
      (33 ≤ n ∧ n ≤ 47) ∨ (58 ≤ n ∧ n ≤ 64) ∨ (91 ≤ n ∧ n ≤ 96) ∨ 123 ≤ n).map
    fun n => String.mk [Char.ofNat n])

/-- Embeds `LLM.__get_stop_words(nlp)`:
`list(nlp.Defaults.stop_words) + [p for p in string.punctuation]`. -/
def get_stop_words (stop_words : List String) : List String :=
  stop_words ++ punctuation_strings

/-- Loop body of `LLM.__remove_stop_words`: successive documents are tokenized,
their stop-word and punctuation tokens dropped, the survivors rejoined with
single spaces and appended to the accumulator `filtered_documents`. -/
def remove_stop_words_go (tok : String → List String) (stop_words : List String) :
    List String → List String → List String
  | [], filtered_documents => filtered_documents
  | doc :: rest, filtered_documents =>
    remove_stop_words_go tok stop_words rest
      (filtered_documents ++
        [" ".intercalate ((tok doc).filter fun t => decide (t ∉ get_stop_words stop_words))])

/-- Embeds `LLM.__remove_stop_words(documents, nlp)`. -/
def remove_stop_words (tok : String → List String) (stop_words : List String)
    (documents : List String) : List String :=
  remove_stop_words_go tok stop_words documents []

/-! ## Translation chunking

Embeds `LLM.__translate_text` (`ai.py` lines 647-679).  The upstream
`GoogleTranslator(...).translate` call is abstracted as `tr`; what the loop
sends it is captured separately by `chunk_loop`, which returns the successive
values of `chunk_to_translate` handed to the upstream translator, in order. -/

/-- Embeds the sentence-accumulation loop of `__translate_text` for the
over-cap branch: first argument is `text.lstrip().split('\n')`, second the
current `chunk_to_translate`.  Returns the list of chunks passed to the
upstream translator (the mid-loop flushes plus the final
`if chunk_to_translate` flush). -/
def chunk_loop : List String → String → List String
  | [], chunk => if chunk.length ≠ 0 then [chunk] else []
  | sentence :: rest, chunk =>
    if sentence.length = 0 then chunk_loop rest chunk
    else if 3000 ≤ chunk.length then chunk :: chunk_loop rest ""
    else chunk_loop rest (chunk ++ sentence ++ "\n")

/-- The chunks `__translate_text(text, dest)` submits upstream: the whole text
when it is within the 5000-character cap, otherwise the chunks produced by the
accumulation loop. -/
def translate_text_chunks (text : String) : List String :=
  if text.length ≤ 5000 then [text]
  else chunk_loop ((pyLstrip text).splitOn "\n") ""

/-- Embeds `LLM.__translate_text(text, destination_language)` with the upstream
translator abstracted as `tr`: the translated chunks are concatenated in
order. -/
def translate_text (tr : String → String) (text : String) : String :=
  String.join ((translate_text_chunks text).map tr)

/-! ## Similarity index (Chroma vector store)

Embeds the vector-store operations of `ai.py`:
`__populate_or_update_expert_recommendation_vector_store` (lines 208-226),
`__delete_expert_from_vector_store` (lines 228-236),
`__add_expert_to_vector_store` (lines 238-252) and
`__update_expert_in_vector_store` (lines 254-269).  The collection is a list of
snippets; `clock n` is the value `time.time()` returns on its n-th call, so
ids are explicit and timestamp collisions are expressible. -/

/-- One stored document of the Chroma collection: its text, its
`expert_email` metadata entry, and the `str(time.time())` id it was added
under. -/
structure Snippet where
  doc : String
  expert_email : String
  id : ℚ
deriving DecidableEq

/-- The collection plus the number of `time.time()` calls made so far (the
argument the clock is read at next). -/
structure VectorStore where
  store : List Snippet
  tick : Nat
deriving DecidableEq

/-- Embeds the inner `for skill in translated_expert_skills_tokenized` loop of
`__populate_or_update_...`: each sentence is added as one snippet whose id is
the current clock reading. -/
def add_snippets (clock : Nat → ℚ) (expert_email : String) :
    List String → VectorStore → VectorStore
  | [], st => st
  | skill :: rest, st =>
    add_snippets clock expert_email rest
      ⟨st.store ++ [⟨skill, expert_email, clock st.tick⟩], st.tick + 1⟩

/-- Embeds `vector_store.get(where={"expert_email": ...})['documents']`: the
texts currently stored for one owner. -/
def stored_documents (st : VectorStore) (expert_email : String) : List String :=
  (st.store.filter fun s => s.expert_email == expert_email).map Snippet.doc

/-- One iteration of `__populate_or_update_expert_recommendation_vector_store`
for a single `(skills, email)` pair: translate the skills to English (`tr`),
segment into sentences (`sents`, abstracting `nlp_en(...).sents`), and add all
sentences unless the stored documents already equal them. -/
def populate_one (tr : String → String) (sents : String → List String)
    (clock : Nat → ℚ) (expert_skills expert_email : String) (st : VectorStore) :
    VectorStore :=
  let translated_tokenized := sents (tr expert_skills)
  let stored := stored_documents st expert_email
  if stored = [] ∨ stored ≠ translated_tokenized then
    add_snippets clock expert_email translated_tokenized st
  else st

/-- Embeds `LLM.__populate_or_update_expert_recommendation_vector_store` over
the paired `(expert_skills, expert_emails)` lists. -/
def populate_or_update_expert_recommendation_vector_store (tr : String → String)
    (sents : String → List String) (clock : Nat → ℚ) (st : VectorStore)
    (expert_skills expert_emails : List String) : VectorStore :=
  (List.zip expert_skills expert_emails).foldl
    (fun acc p => populate_one tr sents clock p.1 p.2 acc) st

/-- Embeds `LLM.__delete_expert_from_vector_store(expert_email)`:
`delete(where={"expert_email": expert_email})` removes every matching
snippet. -/
def delete_expert_from_vector_store (st : VectorStore) (expert_email : String) :
    VectorStore :=
  ⟨st.store.filter fun s => decide (s.expert_email ≠ expert_email), st.tick⟩

/-- Embeds `LLM.__add_expert_to_vector_store(expert_skills, expert_email)`. -/
def add_expert_to_vector_store (tr : String → String)
    (sents : String → List String) (clock : Nat → ℚ)
    (expert_skills expert_email : String) (st : VectorStore) : VectorStore :=
  populate_or_update_expert_recommendation_vector_store tr sents clock st
    [expert_skills] [expert_email]

/-- Embeds `LLM.__update_expert_in_vector_store(expert_skills, expert_email)`:
delete-by-owner, then populate. -/
def update_expert_in_vector_store (tr : String → String)
    (sents : String → List String) (clock : Nat → ℚ)
    (expert_skills expert_email : String) (st : VectorStore) : VectorStore :=
  populate_or_update_expert_recommendation_vector_store tr sents clock
    (delete_expert_from_vector_store st expert_email) [expert_skills] [expert_email]

/-! ## Expert recommendation response assembly

Embeds the per-Role-Query selection loop of `LLM.__get_experts_recommendation`
(`ai.py` lines 798-812): scan the neighbour list returned by the index, keep an
owner only if its cosine distance is at most 0.5 and it was not kept before,
and stop as soon as five owners are kept.  A neighbour is a pair of the
`expert_email` metadata and the distance score. -/

/-- The inner `for j, metadata in enumerate(found_experts['metadatas'][i])`
loop, accumulating the `(expert_emails, scores)` response entry as a list of
pairs. -/
def select_go : List (String × ℚ) → List (String × ℚ) → List (String × ℚ)
  | [], response => response
  | (expert_email, score) :: rest, response =>
    let response2 :=
      if expert_email ∉ response.map Prod.fst ∧ score ≤ 1 / 2 then
        response ++ [(expert_email, score)]
      else response
    if response2.length = 5 then response2 else select_go rest response2

/-- The `(expert_emails, scores)` entry `__get_experts_recommendation` builds
for one Role Query from its neighbour list. -/
def get_experts_recommendation_entry (neighbors : List (String × ℚ)) :
    List (String × ℚ) :=
  select_go neighbors []

/-! ## Keyword extraction

Embeds `LLM.__get_keywords` (`ai.py` lines 845-893).  The translator, the
French sentence segmenter, the spaCy tokenizer, the per-paragraph LLM keyword
call (the retry wrapper `__try_get_llm_keywords`, which either returns a
keyword list or raises) and the KeyBERT ranker are abstracted as functions.
The Python `set` named `keywords` is modelled as a duplicate-free list built by
insert-if-absent. -/

/-- Embeds `keywords.add(k)` on the Python set, as insert-if-absent on the
underlying duplicate-free list. -/
def insert_keyword (keywords : List String) (k : String) : List String :=
  if k ∈ keywords then keywords else keywords ++ [k]

/-- Embeds the `for keybert_keyword in keybert_keywords` back-mapping loop:
`candidate_keywords.index(keybert_keyword)` raises `ValueError` when the phrase
is absent (propagated, not caught), otherwise the original LLM keyword at that
position is upper-cased and added to the set. -/
def back_map_keywords (llm_keywords candidate_keywords : List String) :
    List String → List String → Except String (List String)
  | [], keywords => .ok keywords
  | kb :: rest, keywords =>
    match candidate_keywords.findIdx? (· == kb) with
    | none => .error ("ValueError: " ++ kb ++ " is not in list")
    | some index =>
      back_map_keywords llm_keywords candidate_keywords rest
        (insert_keyword keywords (pyUpper (llm_keywords.getD index "")))

/-- Embeds the paragraph-processing block of `__get_keywords` (lines 877-891)
for one paragraph of at most five sentences. -/
def process_paragraph (tok : String → List String) (stop_words : List String)
    (try_llm : String → Except String (List String))
    (keybert : String → List String → List String) (paragraph : String)
    (keywords : List String) : Except String (List String) :=
  match try_llm paragraph with
  | .error e => .error e
  | .ok raw_llm_keywords =>
    let llm_keywords := raw_llm_keywords.map pyLower
    let candidate_keywords := remove_stop_words tok stop_words llm_keywords
    let keybert_keywords := keybert paragraph candidate_keywords
    back_map_keywords llm_keywords candidate_keywords keybert_keywords keywords

/-- The `for i, sentence in enumerate(translated_text_tokenized)` loop of
`__get_keywords`: sentences are left-stripped and grouped into paragraphs of
five (the last group may be shorter, flushed when the final sentence is
reached). -/
def get_keywords_go (tok : String → List String) (stop_words : List String)
    (try_llm : String → Except String (List String))
    (keybert : String → List String → List String) :
    List String → List String → List String → Except String (List String)
  | [], _sentences, keywords => .ok keywords
  | sentence :: rest, sentences, keywords =>
    let sentences2 := sentences ++ [pyLstrip sentence]
    if sentences2.length = 5 ∨ rest = [] then
      match process_paragraph tok stop_words try_llm keybert
          ("\n".intercalate sentences2) keywords with
      | .error e => .error e
      | .ok keywords2 => get_keywords_go tok stop_words try_llm keybert rest [] keywords2
    else get_keywords_go tok stop_words try_llm keybert rest sentences2 keywords

/-- Embeds `LLM.__get_keywords(text)`: empty text short-circuits to an empty
list; otherwise the text is translated to French (`tr`), segmented into
sentences (`sents`) and processed paragraph by paragraph. -/
def get_keywords (tr : String → String) (sents : String → List String)
    (tok : String → List String) (stop_words : List String)
    (try_llm : String → Except String (List String))
    (keybert : String → List String → List String) (text : String) :
    Except String (List String) :=
  if text = "" then .ok []
  else get_keywords_go tok stop_words try_llm keybert (sents (tr text)) [] []

/-! ## Concrete translation input

A text of three newline-separated sentences of 3000 characters each (9002
characters in total, beyond the 5000-character cap), used to exercise the
over-cap branch of `__translate_text`. -/

/-- A 3000-character sentence of letters a. -/
def long_sentence_a : String := ⟨List.replicate 3000 'a'⟩

/-- A 3000-character sentence of letters b. -/
def long_sentence_b : String := ⟨List.replicate 3000 'b'⟩

/-- A 3000-character sentence of letters c. -/
def long_sentence_c : String := ⟨List.replicate 3000 'c'⟩

/-! ## Auxiliary lemmas -/

theorem long_sentence_a_length : long_sentence_a.length = 3000 := by
  rw [show long_sentence_a.length = (List.replicate 3000 'a').length from rfl,
    List.length_replicate]

theorem long_sentence_b_length : long_sentence_b.length = 3000 := by
  rw [show long_sentence_b.length = (List.replicate 3000 'b').length from rfl,
    List.length_replicate]

theorem long_sentence_c_length : long_sentence_c.length = 3000 := by
  rw [show long_sentence_c.length = (List.replicate 3000 'c').length from rfl,
    List.length_replicate]

/-! ## C1: generative-model retry budget

The spec promises up to 4 attempts: a backend failing parsing three times and
succeeding on the 4th attempt should succeed, and a backend that always fails
should raise the terminal error after exactly 4 attempts.  The code iterates
`for attempt in range(1, max_attempts)` with `max_attempts = 4`, i.e. attempts
1, 2 and 3 only, contradicting its own docstring (`The maximum number of
attempts ... (default: 4)`) and the call-site comments (`max attempts = 4`). -/

/-- C1 (code bug): with `max_attempts = 4` and a backend whose output fails
parsing on attempts 1-3 and parses on attempt 4, both retry wrappers invoke the
backend only 3 times, sleep 3 seconds, and raise the terminal error naming the
operation even though the 4th attempt would have succeeded; the backend indeed
parses successfully on attempt 4. -/
theorem retry_budget_off_by_one :
    (try_get_llm_expert_recommendation backend_three_parse_failures 4 1).result
      = .error "Error occurred when parsing LLM output for generic profiles." ∧
    (try_get_llm_expert_recommendation backend_three_parse_failures 4 1).calls = 3 ∧
    (try_get_llm_expert_recommendation backend_three_parse_failures 4 1).slept = 3 ∧
    (try_get_llm_keywords backend_three_parse_failures 4 1).result
      = .error "Error occurred when parsing LLM output for keywords." ∧
    (try_get_llm_keywords backend_three_parse_failures 4 1).calls = 3 ∧
    backend_three_parse_failures 4 = .ok 42 :=
  ⟨rfl, rfl, rfl, rfl, rfl, rfl⟩

/-! ## C2: translation chunking

On the over-cap branch the loop flushes `chunk_to_translate` only when its
length is already at least 3000 — so every mid-loop flush sends at least 3001
characters upstream — and the sentence that triggered the flush is dropped: the
`else` branch that would append it is skipped and the iteration moves on.  The
claim fails on the code at the three-sentence input below. -/

/-- C2 (code bug): for the 9002-character input made of the three
newline-separated 3000-character sentences, the accumulation loop submits the
chunks `a-sentence ++ newline` (3001 characters, over the 3000 sub-limit) and
`c-sentence ++ newline`, never translating the middle b-sentence (its 3000
characters occur in no submitted chunk); for a text within the cap the whole
text is submitted as the single upstream call. -/
theorem translate_chunking_drops_sentence_and_exceeds_sublimit :
    (long_sentence_a ++ "\n" ++ long_sentence_b ++ "\n" ++ long_sentence_c).length
      = 9002 ∧
    chunk_loop [long_sentence_a, long_sentence_b, long_sentence_c] ""
      = [long_sentence_a ++ "\n", long_sentence_c ++ "\n"] ∧
    (long_sentence_a ++ "\n").length = 3001 ∧
    (String.join (chunk_loop [long_sentence_a, long_sentence_b, long_sentence_c] "")).data.count 'b'
      = 0 ∧
    long_sentence_b.data.count 'b' = 3000 ∧
    translate_text_chunks "hi" = ["hi"] := by
  have hb : chunk_loop [long_sentence_a, long_sentence_b, long_sentence_c] ""
      = [long_sentence_a ++ "\n", long_sentence_c ++ "\n"] := by
    rw [chunk_loop]
    rw [if_neg (by rw [long_sentence_a_length]; omega)]
    rw [if_neg (by simp [String.length])]
    rw [show ("" ++ long_sentence_a ++ "\n") = long_sentence_a ++ "\n" from by simp]
    rw [chunk_loop]
    rw [if_neg (by rw [long_sentence_b_length]; omega)]
    rw [if_pos (by rw [String.length_append, long_sentence_a_length]; simp [String.length])]
    rw [chunk_loop]
    rw [if_neg (by rw [long_sentence_c_length]; omega)]
    rw [if_neg (by simp [String.length])]
    rw [show ("" ++ long_sentence_c ++ "\n") = long_sentence_c ++ "\n" from by simp]
    rw [chunk_loop]
    rw [if_pos (by rw [String.length_append, long_sentence_c_length]; simp [String.length])]
  refine ⟨?_, hb, ?_, ?_, ?_, rfl⟩
  · rw [String.length_append, String.length_append, String.length_append,
      String.length_append, long_sentence_a_length, long_sentence_b_length,
      long_sentence_c_length]
    simp [String.length]
  · rw [String.length_append, long_sentence_a_length]
    simp [String.length]
  · rw [hb]
    rw [show (String.join [long_sentence_a ++ "\n", long_sentence_c ++ "\n"]).data
        = (long_sentence_a ++ "\n").data ++ (long_sentence_c ++ "\n").data from by
      simp [String.join, String.data_append]]
    rw [String.data_append, String.data_append]
    rw [show long_sentence_a.data = List.replicate 3000 'a' from rfl,
      show long_sentence_c.data = List.replicate 3000 'c' from rfl]
    rw [List.count_append, List.count_append, List.count_append]
    rw [List.count_replicate, List.count_replicate]
    decide
  · rw [show long_sentence_b.data = List.replicate 3000 'b' from rfl]
    rw [List.count_replicate_self]

/-! ## C3: RPC method routing

The dispatcher is not restricted to the five-operation RPC table: any
name-mangled private method of the class resolves and is invoked.  The claim
as stated is refuted by the method name `translate_text`; the nearby statement
that holds replaces the five-name table with the full private-method table. -/

/-- C3 counterexample: `translate_text` is outside the five-operation RPC
table, yet `__call_method` resolves and invokes it and returns a success
response instead of the structured method-not-found error. -/
theorem dispatch_invokes_beyond_rpc_table :
    "translate_text" ∉ rpc_table_methods ∧
    call_method (fun _ _ => Except.ok (0 : Nat)) "translate_text" ([] : List Nat)
      = .ok (.success 0) :=
  ⟨by decide, rfl⟩

/-- C3 (amended): the dispatcher resolves a method name against the full table
of name-mangled private methods of the class, a strict superset of the five RPC
operations; every name outside that table yields the structured error response
`Method not found: ...` without invoking any operation, and each of the five
RPC operations is resolvable. -/
theorem dispatch_resolves_private_methods_and_rejects_unknown :
    (∀ m ∈ rpc_table_methods, m ∈ llm_private_methods) ∧
    ∀ (Arg V : Type) (invoke : String → List Arg → Except String V)
      (name : String) (args : List Arg), name ∉ llm_private_methods →
        call_method invoke name args
          = .ok (.failure ("Method not found: " ++ name)) := by
  constructor
  · decide
  · intro Arg V invoke name args h
    unfold call_method
    rw [if_neg h]

/-- C3 witness: the five table operations all resolve, and the unknown name
`frobnicate` gets the structured error response. -/
theorem dispatch_rejects_unknown_witness :
    "get_keywords" ∈ CPIAS.rpc_table_methods ∧
    "get_keywords" ∈ CPIAS.llm_private_methods ∧
    "frobnicate" ∉ CPIAS.llm_private_methods ∧
    call_method (fun _ _ => Except.ok (0 : Nat)) "frobnicate" ([] : List Nat)
      = .ok (.failure ("Method not found: " ++ "frobnicate")) :=
  ⟨by decide,
   dispatch_resolves_private_methods_and_rejects_unknown.1 "get_keywords" (by decide),
   by decide,
   dispatch_resolves_private_methods_and_rejects_unknown.2 Nat Nat _ _ _ (by decide)⟩

/-! ## C7: dispatch-loop failure semantics -/

theorem start_llm_processing_alive {Arg V : Type}
    (invoke : String → List Arg → Except String V) (events : List (LoopEvent Arg))
    (h : LoopEvent.ctxTerminated ∉ events) :
    (start_llm_processing invoke events).1.length = events.length ∧
    (start_llm_processing invoke events).2 = true := by
  induction events with
  | nil => exact ⟨rfl, rfl⟩
  | cons ev rest ih =>
    match ev with
    | .ctxTerminated => exact absurd (List.mem_cons_self _ _) h
    | .msg name args =>
      have h2 : LoopEvent.ctxTerminated ∉ rest := fun hm => h (List.mem_cons_of_mem _ hm)
      obtain ⟨ih1, ih2⟩ := ih h2
      rw [start_llm_processing]
      exact ⟨by simp [ih1], ih2⟩

theorem start_llm_processing_stopped {Arg V : Type}
    (invoke : String → List Arg → Except String V) (events : List (LoopEvent Arg))
    (h : LoopEvent.ctxTerminated ∈ events) :
    (start_llm_processing invoke events).2 = false := by
  induction events with
  | nil => exact absurd h (List.not_mem_nil _)
  | cons ev rest ih =>
    match ev with
    | .ctxTerminated => rfl
    | .msg name args =>
      have h2 : LoopEvent.ctxTerminated ∈ rest := by
        rcases List.mem_cons.mp h with h1 | h1
        · exact absurd h1 (by simp)
        · exact h1
      rw [start_llm_processing]
      exact ih h2

theorem empty_not_private : "" ∉ llm_private_methods := by decide

/-- C7: an exception raised by an invoked operation is caught at the dispatch
boundary and sent back as an error response carrying the exception's message,
after which the loop goes on processing the remaining events; the loop answers
every request and stays available as long as no context-terminated signal
arrives, and reaches the stopped state (availability false) exactly through
that signal. -/
theorem dispatch_loop_survives_operation_exceptions :
    ∀ (Arg V : Type) (invoke : String → List Arg → Except String V),
      (∀ (name : String) (args : List Arg) (rest : List (LoopEvent Arg)) (e : String),
        name ∈ llm_private_methods → invoke name args = .error e →
          start_llm_processing invoke (.msg name args :: rest)
            = (RpcResponse.failure e :: (start_llm_processing invoke rest).1,
               (start_llm_processing invoke rest).2)) ∧
      (∀ events : List (LoopEvent Arg), LoopEvent.ctxTerminated ∉ events →
        (start_llm_processing invoke events).1.length = events.length ∧
        (start_llm_processing invoke events).2 = true) ∧
      (∀ events : List (LoopEvent Arg), LoopEvent.ctxTerminated ∈ events →
        (start_llm_processing invoke events).2 = false) := by
  intro Arg V invoke
  refine ⟨?_, start_llm_processing_alive invoke, start_llm_processing_stopped invoke⟩
  intro name args rest e hmem herr
  have hne : ¬(name = "") := fun hn => empty_not_private (hn ▸ hmem)
  rw [start_llm_processing]
  rw [if_neg hne]
  unfold call_method
  rw [if_pos hmem, herr]

/-- C7 witness: with a backend whose every operation raises the exception
`boom`, the loop answers the one well-formed request with the error response
`boom` and stays available, and a context-terminated signal stops it. -/
theorem dispatch_loop_survives_witness :
    start_llm_processing (fun (_ : String) (_ : List Nat) => (Except.error "boom" : Except String Nat))
        [LoopEvent.msg "get_keywords" ([] : List Nat)]
      = (RpcResponse.failure "boom"
          :: (start_llm_processing
                (fun (_ : String) (_ : List Nat) => (Except.error "boom" : Except String Nat))
                ([] : List (LoopEvent Nat))).1,
         (start_llm_processing
            (fun (_ : String) (_ : List Nat) => (Except.error "boom" : Except String Nat))
            ([] : List (LoopEvent Nat))).2) ∧
    (start_llm_processing (fun (_ : String) (_ : List Nat) => (Except.error "boom" : Except String Nat))
        [LoopEvent.msg "get_keywords" ([] : List Nat)]).1.length = 1 ∧
    (start_llm_processing (fun (_ : String) (_ : List Nat) => (Except.error "boom" : Except String Nat))
        [LoopEvent.msg "get_keywords" ([] : List Nat)]).2 = true ∧
    (start_llm_processing (fun (_ : String) (_ : List Nat) => (Except.error "boom" : Except String Nat))
        ([LoopEvent.ctxTerminated] : List (LoopEvent Nat))).2 = false :=
  ⟨(dispatch_loop_survives_operation_exceptions Nat Nat _).1 "get_keywords" [] [] "boom"
      (by decide) rfl,
   ((dispatch_loop_survives_operation_exceptions Nat Nat _).2.1
      [LoopEvent.msg "get_keywords" []] (by decide)).1,
   ((dispatch_loop_survives_operation_exceptions Nat Nat _).2.1
      [LoopEvent.msg "get_keywords" []] (by decide)).2,
   (dispatch_loop_survives_operation_exceptions Nat Nat _).2.2
      [LoopEvent.ctxTerminated] (by decide)⟩

/-! ## C10: stop-word removal preserves positions -/

theorem remove_stop_words_go_spec (tok : String → List String)
    (stop_words : List String) (documents : List String) :
    ∀ acc, remove_stop_words_go tok stop_words documents acc
      = acc ++ documents.map (fun doc =>
          " ".intercalate ((tok doc).filter fun t => decide (t ∉ get_stop_words stop_words))) := by
  induction documents with
  | nil => intro acc; simp [remove_stop_words_go]
  | cons doc rest ih =>
    intro acc
    rw [remove_stop_words_go, ih, List.map_cons, List.append_assoc]
    rfl

/-- C10: stop-word removal maps each input document independently — the output
list has exactly the length of the input list, and its i-th element is the i-th
input tokenized, stripped of stop-word and punctuation tokens, and rejoined
with single spaces; this per-index alignment is what the positional
back-mapping of the keyword extractor relies on. -/
theorem remove_stop_words_alignment :
    ∀ (tok : String → List String) (stop_words documents : List String),
      remove_stop_words tok stop_words documents
        = documents.map (fun doc =>
            " ".intercalate ((tok doc).filter fun t => decide (t ∉ get_stop_words stop_words))) ∧
      (remove_stop_words tok stop_words documents).length = documents.length := by
  intro tok stop_words documents
  have h := remove_stop_words_go_spec tok stop_words documents []
  rw [List.nil_append] at h
  exact ⟨h, by rw [remove_stop_words, h, List.length_map]⟩

/-! ## C4: per-Role-Query owner selection -/

theorem select_go_cons (e : String) (d : ℚ) (tl acc : List (String × ℚ)) :
    select_go ((e, d) :: tl) acc
      = if (if e ∉ acc.map Prod.fst ∧ d ≤ 1 / 2 then acc ++ [(e, d)] else acc).length = 5
        then if e ∉ acc.map Prod.fst ∧ d ≤ 1 / 2 then acc ++ [(e, d)] else acc
        else select_go tl
          (if e ∉ acc.map Prod.fst ∧ d ≤ 1 / 2 then acc ++ [(e, d)] else acc) := rfl

theorem select_go_spec (rest : List (String × ℚ)) :
    ∀ acc : List (String × ℚ), acc.length < 5 →
      ∃ s, select_go rest acc = acc ++ s ∧
        (acc ++ s).length ≤ 5 ∧
        s.Sublist rest ∧
        (∀ p ∈ s, p.2 ≤ 1 / 2 ∧ p.1 ∉ acc.map Prod.fst ∧
          rest.find? (fun q => q.1 == p.1 && decide (q.2 ≤ 1 / 2)) = some p) ∧
        ((acc.map Prod.fst).Nodup → ((acc ++ s).map Prod.fst).Nodup) := by
  induction rest with
  | nil =>
    intro acc hlen
    refine ⟨[], by rw [select_go, List.append_nil], ?_, List.nil_sublist _, by simp, by simp⟩
    simpa using Nat.le_of_lt hlen
  | cons hd tl ih =>
    obtain ⟨e, d⟩ := hd
    intro acc hlen
    by_cases hq : e ∉ acc.map Prod.fst ∧ d ≤ 1 / 2
    · have hmapnd : (acc.map Prod.fst).Nodup → ((acc ++ [(e, d)]).map Prod.fst).Nodup := by
        intro hnd
        rw [List.map_append]
        refine List.Nodup.append hnd (List.nodup_singleton e) ?_
        intro a ha hb
        simp only [List.map_cons, List.map_nil, List.mem_singleton] at hb
        exact hq.1 (hb ▸ ha)
      have hfind_head :
          List.find? (fun q => q.1 == e && decide (q.2 ≤ 1 / 2)) ((e, d) :: tl)
            = some (e, d) := by
        apply List.find?_cons_of_pos
        simp only [beq_self_eq_true, Bool.true_and, decide_eq_true_eq]
        exact hq.2
      by_cases h5 : acc.length + 1 = 5
      · refine ⟨[(e, d)], ?_, ?_, (List.nil_sublist tl).cons₂ (e, d), ?_, ?_⟩
        · rw [select_go_cons, if_pos hq, if_pos (by simp [h5])]
        · simp [h5]
        · intro p hp
          rw [List.mem_singleton] at hp
          subst hp
          exact ⟨hq.2, hq.1, hfind_head⟩
        · exact hmapnd
      · have hlen2 : (acc ++ [(e, d)]).length < 5 := by
          rw [List.length_append, List.length_singleton]
          omega
        obtain ⟨s2, heq, hle, hsub, hprops, hnd⟩ := ih (acc ++ [(e, d)]) hlen2
        refine ⟨(e, d) :: s2, ?_, ?_, hsub.cons₂ (e, d), ?_, ?_⟩
        · rw [select_go_cons, if_pos hq, if_neg (by simp only [List.length_append, List.length_singleton]; exact h5), heq,
            List.append_assoc]
          rfl
        · rw [show acc ++ (e, d) :: s2 = (acc ++ [(e, d)]) ++ s2 from by
            rw [List.append_assoc]; rfl]
          exact hle
        · intro p hp
          rcases List.mem_cons.mp hp with hp1 | hp1
          · subst hp1
            exact ⟨hq.2, hq.1, hfind_head⟩
          · obtain ⟨hp2, hpnotin, hpfind⟩ := hprops p hp1
            have hpne : p.1 ≠ e := by
              intro hcontra
              apply hpnotin
              rw [List.map_append, List.mem_append]
              right
              simp [hcontra]
            refine ⟨hp2, ?_, ?_⟩
            · intro hcontra
              exact hpnotin (by rw [List.map_append, List.mem_append]; left; exact hcontra)
            · rw [List.find?_cons_of_neg _ ?_, hpfind]
              simp only [Bool.and_eq_true, beq_iff_eq, decide_eq_true_eq]
              rintro ⟨h1, h2⟩
              exact hpne h1.symm
        · intro hnd0
          rw [show acc ++ (e, d) :: s2 = (acc ++ [(e, d)]) ++ s2 from by
            rw [List.append_assoc]; rfl]
          exact hnd (hmapnd hnd0)
    · obtain ⟨s2, heq, hle, hsub, hprops, hnd⟩ := ih acc hlen
      refine ⟨s2, ?_, hle, hsub.cons (e, d), ?_, hnd⟩
      · rw [select_go_cons, if_neg hq, if_neg (by omega), heq]
      · intro p hp
        obtain ⟨hp2, hpnotin, hpfind⟩ := hprops p hp
        refine ⟨hp2, hpnotin, ?_⟩
        rcases Decidable.not_and_iff_or_not.mp hq with hcase | hcase
        · have hemem : e ∈ acc.map Prod.fst := Decidable.not_not.mp hcase
          have hpne : e ≠ p.1 := fun hcontra => hpnotin (hcontra ▸ hemem)
          rw [List.find?_cons_of_neg _ ?_, hpfind]
          simp only [Bool.and_eq_true, beq_iff_eq, decide_eq_true_eq]
          rintro ⟨h1, h2⟩
          exact hpne h1
        · rw [List.find?_cons_of_neg _ ?_, hpfind]
          simp only [Bool.and_eq_true, beq_iff_eq, decide_eq_true_eq]
          rintro ⟨h1, h2⟩
          exact hcase h2

/-- C4: for every neighbour list of a Role Query, the response entry keeps at
most 5 owners, each owner at most once, the kept pairs appear in neighbour
order (a sublist of the scan order), every kept distance is at most 0.5 and
each kept pair is the first qualifying occurrence of its owner in the
neighbour list; an empty neighbour list legitimately yields zero owners. -/
theorem recommendation_entry_bounds :
    (∀ neighbors : List (String × ℚ),
      (get_experts_recommendation_entry neighbors).length ≤ 5 ∧
      ((get_experts_recommendation_entry neighbors).map Prod.fst).Nodup ∧
      (get_experts_recommendation_entry neighbors).Sublist neighbors ∧
      ∀ p ∈ get_experts_recommendation_entry neighbors, p.2 ≤ 1 / 2 ∧
        neighbors.find? (fun q => q.1 == p.1 && decide (q.2 ≤ 1 / 2)) = some p) ∧
    get_experts_recommendation_entry ([] : List (String × ℚ)) = [] := by
  constructor
  · intro neighbors
    obtain ⟨s, heq, hle, hsub, hprops, hnd⟩ :=
      select_go_spec neighbors [] (by norm_num)
    rw [List.nil_append] at heq hle hnd
    rw [show get_experts_recommendation_entry neighbors = s from heq]
    exact ⟨hle, hnd (by simp), hsub, fun p hp => ⟨(hprops p hp).1, (hprops p hp).2.2⟩⟩
  · rw [get_experts_recommendation_entry, select_go]

/-- C4 witness: on the one-neighbour list with owner alice at distance 1/4 the
entry keeps that single pair, whose distance is within the 0.5 threshold and
which is the first qualifying occurrence of its owner. -/
theorem recommendation_entry_bounds_witness :
    get_experts_recommendation_entry [("alice", (1 : ℚ) / 4)] = [("alice", (1 : ℚ) / 4)] ∧
    (get_experts_recommendation_entry [("alice", (1 : ℚ) / 4)]).length ≤ 5 ∧
    ((1 : ℚ) / 4 ≤ 1 / 2) ∧
    List.find? (fun q => q.1 == "alice" && decide (q.2 ≤ 1 / 2)) [("alice", (1 : ℚ) / 4)]
      = some ("alice", (1 : ℚ) / 4) := by
  have heval : get_experts_recommendation_entry [("alice", (1 : ℚ) / 4)]
      = [("alice", (1 : ℚ) / 4)] := by
    rw [get_experts_recommendation_entry, select_go_cons]
    have hcond : "alice" ∉ List.map Prod.fst ([] : List (String × ℚ)) ∧ (1 : ℚ) / 4 ≤ 1 / 2 :=
      ⟨by simp, by norm_num⟩
    rw [if_pos hcond]
    rw [if_neg (by simp)]
    rfl
  have hmem : ("alice", (1 : ℚ) / 4) ∈ get_experts_recommendation_entry
      [("alice", (1 : ℚ) / 4)] := by
    rw [heval]; exact List.mem_singleton.mpr rfl
  obtain ⟨h2, hfind⟩ :=
    (recommendation_entry_bounds.1 [("alice", (1 : ℚ) / 4)]).2.2.2 _ hmem
  exact ⟨heval, (recommendation_entry_bounds.1 [("alice", (1 : ℚ) / 4)]).1, h2, hfind⟩

/-! ## C8: delete-by-owner -/

theorem stored_documents_delete (st : VectorStore) (email : String) :
    stored_documents (delete_expert_from_vector_store st email) email = [] := by
  rw [stored_documents, delete_expert_from_vector_store]
  rw [List.filter_filter]
  have hnil : List.filter
      (fun a => a.expert_email == email && decide (a.expert_email ≠ email)) st.store = [] := by
    apply List.filter_eq_nil_iff.mpr
    intro a _
    by_cases h : a.expert_email = email
    · simp [h]
    · simp [h]
  rw [hnil, List.map_nil]

theorem delete_twice (st : VectorStore) (email : String) :
    delete_expert_from_vector_store (delete_expert_from_vector_store st email) email
      = delete_expert_from_vector_store st email := by
  rw [delete_expert_from_vector_store, delete_expert_from_vector_store]
  rw [List.filter_filter]
  congr 1
  apply List.filter_congr
  intro s _
  rw [Bool.and_self]

theorem delete_noop (st : VectorStore) (email : String)
    (h : ∀ s ∈ st.store, s.expert_email ≠ email) :
    delete_expert_from_vector_store st email = st := by
  rw [delete_expert_from_vector_store]
  obtain ⟨store, tick⟩ := st
  congr 1
  apply List.filter_eq_self.mpr
  intro s hs
  exact decide_eq_true (h s hs)

/-- C8: deleting an owner removes every snippet whose owner matches — afterwards
a query for that owner returns no document; a second delete of the same owner
is a no-op; and deleting an owner with no stored snippet leaves the store
untouched rather than raising. -/
theorem delete_expert_contract :
    ∀ (st : VectorStore) (email : String),
      stored_documents (delete_expert_from_vector_store st email) email = [] ∧
      delete_expert_from_vector_store (delete_expert_from_vector_store st email) email
        = delete_expert_from_vector_store st email ∧
      ((∀ s ∈ st.store, s.expert_email ≠ email) →
        delete_expert_from_vector_store st email = st) :=
  fun st email =>
    ⟨stored_documents_delete st email, delete_twice st email, delete_noop st email⟩

/-- C8 witness: on a store holding one snippet of owner x, deleting owner y
leaves the store untouched, deleting twice equals deleting once, and after the
delete a query for y finds nothing. -/
theorem delete_expert_contract_witness :
    stored_documents
        (delete_expert_from_vector_store ⟨[⟨"doc", "x", 0⟩], 1⟩ "y") "y" = [] ∧
    delete_expert_from_vector_store
        (delete_expert_from_vector_store ⟨[⟨"doc", "x", 0⟩], 1⟩ "y") "y"
      = delete_expert_from_vector_store ⟨[⟨"doc", "x", 0⟩], 1⟩ "y" ∧
    delete_expert_from_vector_store (⟨[⟨"doc", "x", 0⟩], 1⟩ : VectorStore) "y"
      = ⟨[⟨"doc", "x", 0⟩], 1⟩ :=
  ⟨(delete_expert_contract ⟨[⟨"doc", "x", 0⟩], 1⟩ "y").1,
   (delete_expert_contract ⟨[⟨"doc", "x", 0⟩], 1⟩ "y").2.1,
   (delete_expert_contract ⟨[⟨"doc", "x", 0⟩], 1⟩ "y").2.2 (by decide)⟩

/-! ## C5 and C9: populate and update -/

theorem add_snippets_spec (clock : Nat → ℚ) (email : String) :
    ∀ (toks : List String) (st : VectorStore),
      (add_snippets clock email toks st).store
        = st.store ++ (toks.zip (List.range' st.tick toks.length)).map
            (fun p => ⟨p.1, email, clock p.2⟩) ∧
      (add_snippets clock email toks st).tick = st.tick + toks.length := by
  intro toks
  induction toks with
  | nil => intro st; simp [add_snippets]
  | cons t rest ih =>
    intro st
    rw [add_snippets]
    obtain ⟨ih1, ih2⟩ := ih ⟨st.store ++ [⟨t, email, clock st.tick⟩], st.tick + 1⟩
    constructor
    · rw [ih1, List.append_assoc, List.length_cons, List.range'_succ,
        List.zip_cons_cons, List.map_cons]
      rfl
    · rw [ih2]
      simp only [List.length_cons]
      omega

theorem stored_documents_append_own (st : VectorStore) (email : String)
    (new : List Snippet) (hnew : ∀ s ∈ new, s.expert_email = email) :
    stored_documents ⟨st.store ++ new, st.tick⟩ email
      = stored_documents st email ++ new.map Snippet.doc := by
  rw [stored_documents, stored_documents]
  simp only [List.filter_append, List.map_append]
  congr 2
  apply List.filter_eq_self.mpr
  intro s hs
  exact beq_iff_eq.mpr (hnew s hs)

theorem mem_zip_map_snippet (toks : List String) (r : List Nat) (email : String)
    (clock : Nat → ℚ) (s : Snippet)
    (hs : s ∈ (toks.zip r).map (fun p => (⟨p.1, email, clock p.2⟩ : Snippet))) :
    s.expert_email = email := by
  obtain ⟨p, _, hp⟩ := List.mem_map.mp hs
  rw [← hp]

theorem populate_one_of_empty (tr : String → String) (sents : String → List String)
    (clock : Nat → ℚ) (skills email : String) (st : VectorStore)
    (hempty : stored_documents st email = []) :
    populate_one tr sents clock skills email st
      = add_snippets clock email (sents (tr skills)) st := by
  rw [populate_one]
  rw [if_pos (Or.inl hempty)]

theorem update_store_shape (tr : String → String) (sents : String → List String)
    (clock : Nat → ℚ) (skills email : String) (st : VectorStore) :
    update_expert_in_vector_store tr sents clock skills email st
      = add_snippets clock email (sents (tr skills))
          (delete_expert_from_vector_store st email) := by
  rw [update_expert_in_vector_store,
    populate_or_update_expert_recommendation_vector_store]
  rw [show List.zip [skills] [email] = [(skills, email)] from rfl]
  rw [List.foldl_cons, List.foldl_nil]
  exact populate_one_of_empty tr sents clock skills email _
    (stored_documents_delete st email)

/-- C5: update is a full replace — after `update(skills, email)` the documents
stored for that owner are exactly the sentence segmentation of the translated
new skills text, so every snippet a query can return for that owner derives
from the new text and none survives from the old one. -/
theorem update_fully_replaces_owner_snippets :
    ∀ (tr : String → String) (sents : String → List String) (clock : Nat → ℚ)
      (skills email : String) (st : VectorStore),
      stored_documents
          (update_expert_in_vector_store tr sents clock skills email st) email
        = sents (tr skills) ∧
      ∀ s ∈ (update_expert_in_vector_store tr sents clock skills email st).store,
        s.expert_email = email → s.doc ∈ sents (tr skills) := by
  intro tr sents clock skills email st
  rw [update_store_shape]
  set toks := sents (tr skills) with htoks
  set st1 := delete_expert_from_vector_store st email with hst1
  obtain ⟨hstore, _⟩ := add_snippets_spec clock email toks st1
  have hown : ∀ s ∈ (toks.zip (List.range' st1.tick toks.length)).map
      (fun p => (⟨p.1, email, clock p.2⟩ : Snippet)), s.expert_email = email :=
    fun s hs => mem_zip_map_snippet _ _ _ _ s hs
  constructor
  · have hdel : List.filter (fun s => s.expert_email == email) st1.store = [] := by
      have h0 := stored_documents_delete st email
      rw [stored_documents] at h0
      rw [hst1]
      exact List.map_eq_nil_iff.mp h0
    rw [stored_documents, hstore, List.filter_append, List.map_append]
    rw [hdel, List.map_nil, List.nil_append]
    have hfil : List.filter (fun s => s.expert_email == email)
        ((toks.zip (List.range' st1.tick toks.length)).map
          (fun p => (⟨p.1, email, clock p.2⟩ : Snippet)))
        = (toks.zip (List.range' st1.tick toks.length)).map
            (fun p => (⟨p.1, email, clock p.2⟩ : Snippet)) :=
      List.filter_eq_self.mpr (fun s hs => beq_iff_eq.mpr (hown s hs))
    rw [hfil, List.map_map]
    rw [show (Snippet.doc ∘ fun p => (⟨p.1, email, clock p.2⟩ : Snippet))
        = Prod.fst from rfl]
    exact List.map_fst_zip toks _ (by rw [List.length_range'])
  · intro s hs hsmail
    rw [hstore] at hs
    rcases List.mem_append.mp hs with hmem | hmem
    · exfalso
      rw [hst1, delete_expert_from_vector_store] at hmem
      have := List.of_mem_filter hmem
      rw [decide_eq_true_eq] at this
      exact this hsmail
    · obtain ⟨p, hpmem, hp⟩ := List.mem_map.mp hmem
      have hdoc : s.doc = p.1 := by rw [← hp]
      rw [hdoc]
      exact (List.of_mem_zip hpmem).1

/-- C5 witness: updating the owner whose store holds one old-sentence snippet
with a skill text segmenting into one new sentence leaves exactly the new
sentence stored for that owner, and that stored snippet's text derives from the
new skills. -/
theorem update_fully_replaces_witness :
    stored_documents (update_expert_in_vector_store (fun s => s)
        (fun _ => ["new sentence"]) (fun _ => (0 : ℚ)) "new skills" "owner"
        ⟨[⟨"old sentence", "owner", 0⟩], 1⟩) "owner" = ["new sentence"] ∧
    (⟨"new sentence", "owner", 0⟩ : Snippet).doc ∈ ["new sentence"] := by
  refine ⟨(update_fully_replaces_owner_snippets (fun s => s)
      (fun _ => ["new sentence"]) (fun _ => (0 : ℚ)) "new skills" "owner"
      ⟨[⟨"old sentence", "owner", 0⟩], 1⟩).1, ?_⟩
  exact (update_fully_replaces_owner_snippets (fun s => s)
      (fun _ => ["new sentence"]) (fun _ => (0 : ℚ)) "new skills" "owner"
      ⟨[⟨"old sentence", "owner", 0⟩], 1⟩).2 ⟨"new sentence", "owner", 0⟩
    (by decide) rfl

theorem populate_one_suffix (tr : String → String) (sents : String → List String)
    (clock : Nat → ℚ) (skills email : String) (st : VectorStore) :
    ∃ b : List Snippet,
      (populate_one tr sents clock skills email st).store = st.store ++ b ∧
      b.map Snippet.id = (List.range' st.tick b.length).map clock ∧
      (populate_one tr sents clock skills email st).tick = st.tick + b.length := by
  rw [populate_one]
  by_cases h : stored_documents st email = []
      ∨ stored_documents st email ≠ sents (tr skills)
  · rw [if_pos h]
    obtain ⟨h1, h2⟩ := add_snippets_spec clock email (sents (tr skills)) st
    set toks := sents (tr skills) with htoks
    refine ⟨(toks.zip (List.range' st.tick toks.length)).map
      (fun p => (⟨p.1, email, clock p.2⟩ : Snippet)), h1, ?_, ?_⟩
    · rw [List.map_map]
      rw [show (Snippet.id ∘ fun p => (⟨p.1, email, clock p.2⟩ : Snippet))
          = (clock ∘ Prod.snd) from rfl]
      rw [← List.map_map]
      rw [List.map_snd_zip toks _ (by rw [List.length_range'])]
      rw [List.length_map, List.length_zip, List.length_range',
        Nat.min_self]
    · rw [h2, List.length_map, List.length_zip, List.length_range', Nat.min_self]
  · rw [if_neg h]
    exact ⟨[], by rw [List.append_nil], by simp, by simp⟩

theorem populate_list_suffix (tr : String → String) (sents : String → List String)
    (clock : Nat → ℚ) :
    ∀ (pairs : List (String × String)) (st : VectorStore),
      ∃ new : List Snippet,
        (pairs.foldl (fun acc p => populate_one tr sents clock p.1 p.2 acc) st).store
          = st.store ++ new ∧
        new.map Snippet.id = (List.range' st.tick new.length).map clock ∧
        (pairs.foldl (fun acc p => populate_one tr sents clock p.1 p.2 acc) st).tick
          = st.tick + new.length := by
  intro pairs
  induction pairs with
  | nil => intro st; exact ⟨[], by simp, by simp, by simp⟩
  | cons pr rest ih =>
    intro st
    rw [List.foldl_cons]
    obtain ⟨b, hb1, hb2, hb3⟩ := populate_one_suffix tr sents clock pr.1 pr.2 st
    obtain ⟨new1, h1, h2, h3⟩ := ih (populate_one tr sents clock pr.1 pr.2 st)
    refine ⟨b ++ new1, ?_, ?_, ?_⟩
    · rw [h1, hb1, List.append_assoc]
    · rw [List.map_append, hb2, h2, hb3, List.length_append]
      rw [← List.map_append, List.range'_append_1, Nat.add_comm]
    · rw [h3, hb3, List.length_append]
      omega

/-- C9 counterexample: with a clock whose consecutive readings coincide (two
`time.time()` calls within timer resolution), populating one owner whose skill
text segments into two sentences stores two snippets carrying the same id 0 —
submission-time ids are not unique. -/
theorem timestamp_ids_collide :
    (populate_or_update_expert_recommendation_vector_store (fun s => s)
        (fun _ => ["first sentence", "second sentence"]) (fun _ => (0 : ℚ))
        ⟨[], 0⟩ ["skills text"] ["owner at example"]).store
      = [⟨"first sentence", "owner at example", 0⟩,
         ⟨"second sentence", "owner at example", 0⟩] := by
  rfl

/-- C9 (amended): the ids of the snippets added by one `populate_or_update`
call are the clock readings of consecutive `time.time()` calls, so they are
pairwise distinct provided the clock is injective (each submission observes a
fresh reading); with a clock that can repeat a reading, back-to-back additions
may share an id. -/
theorem populate_ids_distinct_of_injective_clock :
    ∀ (tr : String → String) (sents : String → List String) (clock : Nat → ℚ)
      (st : VectorStore) (expert_skills expert_emails : List String),
      Function.Injective clock →
      ((((populate_or_update_expert_recommendation_vector_store tr sents clock st
          expert_skills expert_emails).store).drop st.store.length).map
        Snippet.id).Nodup := by
  intro tr sents clock st expert_skills expert_emails hinj
  rw [populate_or_update_expert_recommendation_vector_store]
  obtain ⟨new, h1, h2, _⟩ :=
    populate_list_suffix tr sents clock (expert_skills.zip expert_emails) st
  rw [h1, List.drop_left, h2]
  exact (List.nodup_range' _ _).map hinj

/-- C9 witness: with the strictly increasing clock reading n on the n-th call,
the two snippets stored for the two-sentence skill text get distinct ids. -/
theorem populate_ids_distinct_witness :
    ((((populate_or_update_expert_recommendation_vector_store (fun s => s)
        (fun _ => ["first sentence", "second sentence"]) (fun n => (n : ℚ))
        ⟨[], 0⟩ ["skills text"] ["owner at example"]).store).drop 0).map
      Snippet.id).Nodup :=
  populate_ids_distinct_of_injective_clock (fun s => s)
    (fun _ => ["first sentence", "second sentence"]) (fun n => (n : ℚ))
    ⟨[], 0⟩ ["skills text"] ["owner at example"] Nat.cast_injective

/-! ## C6: keyword-extraction contract -/

theorem toNat_ofNat_valid (n : ℕ) (h : n.isValidChar) : (Char.ofNat n).toNat = n := by
  unfold Char.ofNat
  rw [dif_pos h]
  unfold Char.ofNatAux Char.toNat
  simp [UInt32.toNat]

theorem pyUpperChar_idem (c : Char) : pyUpperChar (pyUpperChar c) = pyUpperChar c := by
  unfold pyUpperChar
  by_cases h : c.toNat ≥ 97 ∧ c.toNat ≤ 122
  · rw [if_pos h]
    have hval : Nat.isValidChar (c.toNat - 32) := Or.inl (by omega)
    rw [toNat_ofNat_valid _ hval]
    rw [if_neg (by omega)]
  · rw [if_neg h, if_neg h]

theorem pyUpper_idem (s : String) : pyUpper (pyUpper s) = pyUpper s := by
  rw [show pyUpper s = ⟨s.data.map pyUpperChar⟩ from rfl,
    show pyUpper ⟨s.data.map pyUpperChar⟩
      = ⟨(s.data.map pyUpperChar).map pyUpperChar⟩ from rfl]
  apply congrArg String.mk
  rw [List.map_map]
  exact List.map_congr_left (fun c _ => pyUpperChar_idem c)

theorem insert_keyword_nodup (ks : List String) (k : String) (h : ks.Nodup) :
    (insert_keyword ks k).Nodup := by
  rw [insert_keyword]
  by_cases hk : k ∈ ks
  · rw [if_pos hk]; exact h
  · rw [if_neg hk]
    refine List.Nodup.append h (List.nodup_singleton k) ?_
    intro a ha hb
    rw [List.mem_singleton] at hb
    exact hk (hb ▸ ha)

theorem insert_keyword_cases (ks : List String) (k a : String)
    (ha : a ∈ insert_keyword ks k) : a ∈ ks ∨ a = k := by
  rw [insert_keyword] at ha
  by_cases hk : k ∈ ks
  · rw [if_pos hk] at ha; exact Or.inl ha
  · rw [if_neg hk] at ha
    rcases List.mem_append.mp ha with h1 | h1
    · exact Or.inl h1
    · exact Or.inr (List.mem_singleton.mp h1)

theorem back_map_keywords_invariant (llm_keywords candidate_keywords : List String) :
    ∀ (kb ks ks2 : List String),
      back_map_keywords llm_keywords candidate_keywords kb ks = .ok ks2 →
      ks.Nodup → (∀ x ∈ ks, pyUpper x = x) →
      ks2.Nodup ∧ ∀ x ∈ ks2, pyUpper x = x := by
  intro kb
  induction kb with
  | nil =>
    intro ks ks2 h hnd hup
    rw [back_map_keywords] at h
    rw [show ks2 = ks from by injection h with h2; exact h2.symm]
    exact ⟨hnd, hup⟩
  | cons kb1 rest ih =>
    intro ks ks2 h hnd hup
    rw [back_map_keywords] at h
    cases hidx : candidate_keywords.findIdx? (· == kb1) with
    | none => rw [hidx] at h; cases h
    | some index =>
      rw [hidx] at h
      refine ih _ _ h (insert_keyword_nodup _ _ hnd) ?_
      intro x hx
      rcases insert_keyword_cases _ _ _ hx with h1 | h1
      · exact hup x h1
      · rw [h1]
        exact pyUpper_idem _

theorem get_keywords_go_invariant (tok : String → List String)
    (stop_words : List String) (try_llm : String → Except String (List String))
    (keybert : String → List String → List String) :
    ∀ (toks sentences ks ks2 : List String),
      get_keywords_go tok stop_words try_llm keybert toks sentences ks = .ok ks2 →
      ks.Nodup → (∀ x ∈ ks, pyUpper x = x) →
      ks2.Nodup ∧ ∀ x ∈ ks2, pyUpper x = x := by
  intro toks
  induction toks with
  | nil =>
    intro sentences ks ks2 h hnd hup
    rw [get_keywords_go] at h
    rw [show ks2 = ks from by injection h with h2; exact h2.symm]
    exact ⟨hnd, hup⟩
  | cons s rest ih =>
    intro sentences ks ks2 h hnd hup
    rw [get_keywords_go] at h
    by_cases hc : (sentences ++ [pyLstrip s]).length = 5 ∨ rest = []
    · rw [if_pos hc] at h
      cases hpp : process_paragraph tok stop_words try_llm keybert
          ("\n".intercalate (sentences ++ [pyLstrip s])) ks with
      | error e => rw [hpp] at h; cases h
      | ok ks1 =>
        rw [hpp] at h
        have h1 : ks1.Nodup ∧ ∀ x ∈ ks1, pyUpper x = x := by
          rw [process_paragraph] at hpp
          cases hll : try_llm ("\n".intercalate (sentences ++ [pyLstrip s])) with
          | error e => rw [hll] at hpp; cases hpp
          | ok raw =>
            rw [hll] at hpp
            exact back_map_keywords_invariant _ _ _ _ _ hpp hnd hup
        exact ih _ _ _ h h1.1 h1.2
    · rw [if_neg hc] at h
      exact ih _ _ _ h hnd hup

/-- C6: keyword extraction returns an empty result (not an error) on empty
input; on every input on which it succeeds the returned collection holds no
duplicates — not even case-insensitively — and every returned tag is fixed by
upper-casing. -/
theorem extract_keywords_contract :
    (∀ (tr : String → String) (sents tok : String → List String)
       (stop_words : List String) (try_llm : String → Except String (List String))
       (keybert : String → List String → List String),
       get_keywords tr sents tok stop_words try_llm keybert "" = .ok []) ∧
    ∀ (tr : String → String) (sents tok : String → List String)
      (stop_words : List String) (try_llm : String → Except String (List String))
      (keybert : String → List String → List String) (text : String)
      (ks : List String),
      get_keywords tr sents tok stop_words try_llm keybert text = .ok ks →
      ks.Nodup ∧ (∀ k ∈ ks, pyUpper k = k) ∧
      ∀ a ∈ ks, ∀ b ∈ ks, pyUpper a = pyUpper b → a = b := by
  constructor
  · intro tr sents tok stop_words try_llm keybert
    rw [get_keywords, if_pos rfl]
  · intro tr sents tok stop_words try_llm keybert text ks h
    rw [get_keywords] at h
    by_cases ht : text = ""
    · rw [if_pos ht] at h
      rw [show ks = [] from by injection h with h2; exact h2.symm]
      exact ⟨List.nodup_nil, by simp, by simp⟩
    · rw [if_neg ht] at h
      obtain ⟨hnd, hup⟩ := get_keywords_go_invariant tok stop_words try_llm keybert
        _ _ _ _ h List.nodup_nil (by simp)
      refine ⟨hnd, hup, ?_⟩
      intro a ha b hb hab
      exact (hup a ha).symm.trans (hab.trans (hup b hb))

/-- C6 witness: with identity translation, singleton segmentation and
tokenization, a generative backend answering the candidate ab and a ranker
keeping all candidates, the extractor returns exactly the upper-cased tag AB,
which is duplicate-free and fixed by upper-casing; the empty input returns the
empty result. -/
theorem extract_keywords_contract_witness :
    get_keywords (fun s => s) (fun s => [s]) (fun s => [s]) []
        (fun _ => .ok ["ab"]) (fun _ candidates => candidates) "" = .ok [] ∧
    get_keywords (fun s => s) (fun s => [s]) (fun s => [s]) []
        (fun _ => .ok ["ab"]) (fun _ candidates => candidates) "hi" = .ok ["AB"] ∧
    (["AB"] : List String).Nodup ∧ pyUpper "AB" = "AB" := by
  have h : get_keywords (fun s => s) (fun s => [s]) (fun s => [s]) []
      (fun _ => .ok ["ab"]) (fun _ candidates => candidates) "hi" = .ok ["AB"] := by
    rfl
  obtain ⟨h1, h2, _⟩ := extract_keywords_contract.2 (fun s => s) (fun s => [s])
    (fun s => [s]) [] (fun _ => .ok ["ab"]) (fun _ candidates => candidates) "hi" ["AB"] h
  exact ⟨extract_keywords_contract.1 (fun s => s) (fun s => [s]) (fun s => [s]) []
      (fun _ => .ok ["ab"]) (fun _ candidates => candidates),
    h, h1, h2 "AB" (List.mem_singleton.mpr rfl)⟩

end CPIAS
